import Mathlib

/-!
Shallow embedding of the Splitwise poker-leaderboard pipeline
(`scripts/splitwise-2025.py`): the filter → transform → aggregate core.

Modelling conventions:
* Monetary shares (`paid_share`, `owed_share`, winnings) are integers in
  cents. Splitwise share fields are decimal strings with two fractional
  digits; the spec types them "decimal". Python's `float` introduces binary
  rounding that the spec's decimal model abstracts away, and every claim
  below is about order/ring structure that is independent of the scale, so
  exact integer cents are used as the numeric carrier.
* A JSON field that may be missing is an `Option`; `none` stands for the
  absent key (and, where the code treats them identically, a JSON `null`).
* Python exceptions are modelled by `Except String`: a computation that can
  raise returns `.error msg`; the message mirrors the Python exception.
* Python's `str.strip()` / `str.lower()` and the substring test `in` are
  modelled by the character-list functions `stripCh` / `lowerCh` /
  `hasSubstr` below (the inputs of interest are ASCII).
* pandas sorts are modelled by `List.insertionSort`; pandas'
  `sort_values` leaves the relative order of equal keys unspecified
  (quicksort), and no theorem below depends on the tie order.
* The module-level configuration constants (`TARGET_YEAR`,
  `EXCLUDE_DESCRIPTION_KEYWORDS`) are passed as explicit parameters, and the
  concrete constants from the script are also defined below.
-/

/-- A parsed datetime, reduced to the calendar fields the pipeline reads
(`dt.year`, and `dt.month` / `dt.day` used by `add_week_keys`). -/
structure PyDate where
  year : Int
  month : Nat
  day : Nat
deriving DecidableEq, Repr

/-- The raw `"date"` field of an expense as seen by
`dateparser.parse(exp["date"])`: the key can be missing (Python raises
`KeyError`), the string can fail to parse (`dateutil` raises `ParserError`),
or it parses to a datetime. -/
inductive DateField where
  | missing
  | unparseable (s : String)
  | parsed (d : PyDate)
deriving DecidableEq, Repr

/-- A dynamically typed JSON value for the `"payment"` field; the code tests
it with `exp.get("payment") is True`, which is an identity test against the
boolean `True` (so the integer `1` or a non-empty string does not pass). -/
inductive PyVal where
  | bool (b : Bool)
  | int (n : Int)
  | str (s : String)
deriving DecidableEq, Repr

/-- A share field value, classified by how
`float(u.get("paid_share", 0) or 0)` treats it:
* `num q` — a JSON number worth `q` cents (`float` maps it to itself; a
  zero number is falsy but `0 or 0` is still `0`);
* `numStr q` — a non-empty string that `float` parses, worth `q` cents
  (non-empty strings are truthy, so `or 0` keeps them);
* `emptyStr` — the empty string, falsy, replaced by `0`;
* `badStr s` — a non-empty string `float` rejects (`ValueError`);
* `null` — JSON `null` / Python `None`, falsy, replaced by `0`. -/
inductive ShareVal where
  | num (q : Int)
  | numStr (q : Int)
  | emptyStr
  | badStr (s : String)
  | null
deriving DecidableEq, Repr

/-- The nested `"user"` object of a participation; every field may be
missing or `null` (both read back as `None` through `.get`). -/
structure UserObj where
  first_name : Option String := none
  last_name : Option String := none
  name : Option String := none
  email : Option String := none
deriving DecidableEq, Repr

/-- One element of an expense's `"users"` list. `user = none` models a
missing or falsy `"user"` key (`u.get("user", {}) or {}` turns it into the
empty object). -/
structure UserShare where
  user : Option UserObj := none
  paid_share : Option ShareVal := none
  owed_share : Option ShareVal := none
deriving DecidableEq, Repr

/-- A raw expense record. `description = none` models a missing key or a
JSON `null` (the code reads it with `exp.get("description") or ""` and
`exp.get("description", "")`). `users = none` models a missing `"users"`
key (`exp.get("users", [])`). -/
structure Expense where
  description : Option String := none
  payment : Option PyVal := none
  date : DateField := .missing
  users : Option (List UserShare) := none
deriving DecidableEq, Repr

/-- One row of the DataFrame built by `parse_expenses` (a `WinningsRow`);
`winnings` is the net amount in cents. -/
structure Row where
  date : PyDate
  player : String
  winnings : Int
  expense : String
deriving DecidableEq, Repr

/-- The script's `TARGET_YEAR` constant. -/
def TARGET_YEAR : Int := 2025

/-- The script's `EXCLUDE_DESCRIPTION_KEYWORDS` constant. -/
def EXCLUDE_DESCRIPTION_KEYWORDS : List String :=
  ["settle all balances", "poker mat", "SNP Chairs", "Payment",
   "Table and chairs", "Poker table"]

/-- Python `str.strip()` on a character list: drop whitespace from both
ends. -/
def stripCh (s : List Char) : List Char :=
  ((s.dropWhile Char.isWhitespace).reverse.dropWhile Char.isWhitespace).reverse

/-- Python `str.strip()`. -/
def pyStrip (s : String) : String :=
  String.mk (stripCh s.data)

/-- Python `str.lower()` on one character (ASCII letters, which is all the
configured keywords and descriptions of interest contain). -/
def lowerCh (c : Char) : Char :=
  if 65 ≤ c.toNat ∧ c.toNat ≤ 90 then Char.ofNat (c.toNat + 32) else c

/-- Python `str.lower()`. -/
def pyLower (s : String) : String :=
  String.mk (s.data.map lowerCh)

/-- Whether `needle` occurs at the start of `hay` (character lists). -/
def startsWithCh : List Char → List Char → Bool
  | [], _ => true
  | _ :: _, [] => false
  | a :: n, b :: h => a == b && startsWithCh n h

/-- Python's substring test `needle in hay`, on character lists. -/
def hasSubstr (needle : List Char) : List Char → Bool
  | [] => needle.isEmpty
  | b :: h => startsWithCh needle (b :: h) || hasSubstr needle h

/-- The test `exp.get("payment") is True`: Python's `is` compares object
identity, so it holds exactly for the boolean `True` and for no other
value, however truthy. -/
def isPaymentTrue (p : Option PyVal) : Bool :=
  match p with
  | some (.bool true) => true
  | _ => false

/-- The exclusion filter `should_exclude_expense`, parametrised by the
keyword list the script stores in `EXCLUDE_DESCRIPTION_KEYWORDS`:
`desc = (exp.get("description") or "").strip().lower()`; return `True` if
some keyword's lowercase form is a substring of `desc`, else `True` if
`exp.get("payment") is True`, else `False`. -/
def shouldExcludeExpense (kws : List String) (exp : Expense) : Bool :=
  let desc := pyLower (pyStrip (exp.description.getD ""))
  if kws.any (fun kw => hasSubstr (pyLower kw).data desc.data) then true
  else isPaymentTrue exp.payment

/-- Python truthiness of an optional string value: truthy iff present and
non-empty (`None` and `""` are falsy). -/
def truthyStr (o : Option String) : Bool :=
  decide (o.getD "" ≠ "")

/-- Python's `x or d` for an optional string `x`: keep `x`'s value when it
is truthy, otherwise the default. -/
def orElseStr (o : Option String) (d : String) : String :=
  match o with
  | none => d
  | some s => if s = "" then d else s

/-- The display-name resolution inside `parse_expenses`:
`first`/`last` are the stripped name parts (missing/`None` read as `""`),
`full = f"{first} {last}".strip()`, and the result is
`full if full else user_obj.get("name") or user_obj.get("email") or "Unknown"`. -/
def resolveName (u : UserObj) : String :=
  let first := pyStrip (u.first_name.getD "")
  let last := pyStrip (u.last_name.getD "")
  let full := pyStrip (first ++ " " ++ last)
  if full = "" then orElseStr u.name (orElseStr u.email "Unknown") else full

/-- The share coercion `float(u.get("paid_share", 0) or 0)`: a missing key
defaults to `0`; falsy values (`None`, `""`, and numeric `0`, which maps to
itself) become `0`; numbers and numeric strings give their value; a
non-empty non-numeric string makes `float` raise `ValueError`. -/
def coerceShare : Option ShareVal → Except String Int
  | none => .ok 0
  | some .null => .ok 0
  | some .emptyStr => .ok 0
  | some (.num q) => .ok q
  | some (.numStr q) => .ok q
  | some (.badStr s) => .error ("ValueError: could not convert string to float: " ++ s)

/-- The body of the inner `for u in exp.get("users", [])` loop: resolve the
name, coerce both shares, compute `net = paid - owed`, and append a row
(with `str(name).strip()` as the player) only when `net != 0`. -/
def extractRow (dt : PyDate) (desc : String) (u : UserShare) :
    Except String (Option Row) :=
  let userObj := u.user.getD {}
  let name := resolveName userObj
  match coerceShare u.paid_share with
  | .error e => .error e
  | .ok paid =>
    match coerceShare u.owed_share with
    | .error e => .error e
    | .ok owed =>
      let net := paid - owed
      if net ≠ 0 then
        .ok (some { date := dt, player := pyStrip name, winnings := net, expense := desc })
      else
        .ok none

/-- The inner loop over an expense's `"users"` list, accumulating rows in
participation order. -/
def extractRows (dt : PyDate) (desc : String) :
    List UserShare → Except String (List Row)
  | [] => .ok []
  | u :: us =>
    match extractRow dt desc u with
    | .error e => .error e
    | .ok r? =>
      match extractRows dt desc us with
      | .error e => .error e
      | .ok rest =>
        match r? with
        | some r => .ok (r :: rest)
        | none => .ok rest

/-- The `parse_expenses` loop. For each expense: skip it when
`should_exclude_expense` holds; otherwise evaluate
`dateparser.parse(exp["date"])`, which raises (aborting the whole call)
when the key is missing or the string is unparseable; skip the expense when
`dt.year != TARGET_YEAR`; otherwise extract its per-participation rows and
continue. -/
def parseExpenses (kws : List String) (targetYear : Int) :
    List Expense → Except String (List Row)
  | [] => .ok []
  | exp :: rest =>
    if shouldExcludeExpense kws exp then parseExpenses kws targetYear rest
    else
      match exp.date with
      | .missing => .error "KeyError: date"
      | .unparseable s => .error ("ParserError: Unknown string format: " ++ s)
      | .parsed dt =>
        if dt.year ≠ targetYear then parseExpenses kws targetYear rest
        else
          match extractRows dt (exp.description.getD "") (exp.users.getD []) with
          | .error e => .error e
          | .ok rows =>
            match parseExpenses kws targetYear rest with
            | .error e => .error e
            | .ok rest' => .ok (rows ++ rest')

/-- The month abbreviation produced by `dt.strftime("%b")` in the C locale,
for the month numbers a parsed datetime can carry. -/
def monthAbbr : Nat → String
  | 1 => "Jan" | 2 => "Feb" | 3 => "Mar" | 4 => "Apr" | 5 => "May" | 6 => "Jun"
  | 7 => "Jul" | 8 => "Aug" | 9 => "Sep" | 10 => "Oct" | 11 => "Nov" | 12 => "Dec"
  | _ => ""

/-- A row after `add_week_keys`: the original columns plus `month`,
`week_of_month` and `week_label`. -/
structure KRow where
  date : PyDate
  player : String
  winnings : Int
  expense : String
  month : String
  week_of_month : Nat
  week_label : String
deriving DecidableEq, Repr

/-- `add_week_keys`: a column-adding copy of the frame;
`month = date.strftime("%b")`, `week_of_month = ((day - 1) // 7) + 1`,
`week_label = month + " W" + str(week_of_month)`. -/
def addWeekKeys (df : List Row) : List KRow :=
  df.map (fun r =>
    let month := monthAbbr r.date.month
    let wom := (r.date.day - 1) / 7 + 1
    { date := r.date, player := r.player, winnings := r.winnings,
      expense := r.expense, month := month, week_of_month := wom,
      week_label := month ++ " W" ++ toString wom })

/-- One row of the yearly leaderboard table. -/
structure YRow where
  rank : Nat
  player : String
  winnings : Int
deriving DecidableEq, Repr

/-- One row of the weekly-totals table. -/
structure WRow where
  week_label : String
  week_rank : Nat
  player : String
  winnings : Int
deriving DecidableEq, Repr

/-- One row of the weekly-winners table. -/
structure WinnerRow where
  week_label : String
  winner : String
  top_winnings : Int
deriving DecidableEq, Repr

/-- The descending-by-summed-winnings order used by
`sort_values("winnings", ascending=False)` on grouped `(player, sum)`
pairs. -/
def descWinnings (x y : String × Int) : Prop := y.2 ≤ x.2

instance : DecidableRel descWinnings := fun x y => Int.decLe y.2 x.2

instance : IsTotal (String × Int) descWinnings := ⟨fun a b => le_total b.2 a.2⟩

instance : IsTrans (String × Int) descWinnings :=
  ⟨fun _ _ _ h1 h2 => le_trans h2 h1⟩

/-- The summed winnings of player `p` over the rows (the aggregation behind
`groupby(...)["winnings"].sum()`). -/
def sumFor (p : String) (rows : List KRow) : Int :=
  ((rows.filter (fun r => r.player == p)).map (fun r => r.winnings)).sum

/-- The result of `df.groupby("player", as_index=False)["winnings"].sum()`:
one `(player, sum)` pair per distinct player, keys in the sorted order
pandas uses for group keys. -/
def yearlyPairs (rows : List KRow) : List (String × Int) :=
  (((rows.map (fun r => r.player)).dedup).insertionSort (fun a b => a ≤ b)).map
    (fun p => (p, sumFor p rows))

/-- The yearly leaderboard: the grouped pairs sorted by summed winnings
descending (`sort_values("winnings", ascending=False)`), then
`rank = 1..K` assigned positionally (`range(1, len(yearly) + 1)`). -/
def yearlyLeaderboard (rows : List KRow) : List YRow :=
  (((yearlyPairs rows).insertionSort descWinnings).enum).map
    (fun ie => { rank := ie.1 + 1, player := ie.2.1, winnings := ie.2.2 })

/-- The week's grouped `(player, sum)` pairs, for rows carrying the given
`week_label` (the per-week slice of
`groupby(["week_label", "player"], as_index=False)["winnings"].sum()`). -/
def weekPairs (lbl : String) (rows : List KRow) : List (String × Int) :=
  ((((rows.filter (fun r => r.week_label == lbl)).map
        (fun r => r.player)).dedup).insertionSort (fun a b => a ≤ b)).map
    (fun p => (p, sumFor p (rows.filter (fun r => r.week_label == lbl))))

/-- The distinct week labels, sorted ascending (the `week_label` component
of the sort `sort_values(["week_label", "winnings"], ascending=[True, False])`). -/
def sortedWeekLabels (rows : List KRow) : List String :=
  ((rows.map (fun r => r.week_label)).dedup).insertionSort (fun a b => a ≤ b)

/-- One week's slice of the weekly-totals table: the week's pairs sorted
by summed winnings descending, with
`week_rank = rank(method="first", ascending=False)` — positional ranks
`1..M` within the week, ties taking consecutive ranks in the order they
appear after the sort. -/
def weekBlock (lbl : String) (rows : List KRow) : List WRow :=
  (((weekPairs lbl rows).insertionSort descWinnings).enum).map
    (fun ie => { week_label := lbl, week_rank := ie.1 + 1,
                 player := ie.2.1, winnings := ie.2.2 })

/-- The weekly-totals table: the per-week slices concatenated in ascending
week-label order (the order `sort_values(["week_label", "winnings"],
ascending=[True, False])` leaves the frame in). -/
def weeklyTotals (rows : List KRow) : List WRow :=
  (sortedWeekLabels rows).flatMap (fun lbl => weekBlock lbl rows)

/-- The weekly-winners table: `weekly.groupby("week_label").first()` — the
first (rank-1) row of each week's descending-sorted pairs. -/
def weeklyWinners (rows : List KRow) : List WinnerRow :=
  (sortedWeekLabels rows).filterMap (fun lbl =>
    (((weekPairs lbl rows).insertionSort descWinnings).head?).map
      (fun pr => { week_label := lbl, winner := pr.1, top_winnings := pr.2 }))

/-- The three tables returned by `compute_leaderboards`. -/
structure Boards where
  yearly : List YRow
  weekly_winners : List WinnerRow
  weekly : List WRow
deriving Repr

/-- `compute_leaderboards(df)`: add the week keys, then build the yearly
leaderboard, weekly winners and weekly totals. -/
def computeLeaderboards (df : List Row) : Boards :=
  let k := addWeekKeys df
  { yearly := yearlyLeaderboard k
    weekly_winners := weeklyWinners k
    weekly := weeklyTotals k }

/-- Stated from the spec's words for comparison: the yearly total of one
player (group rows by player, sum `net_amount`). -/
def yearlyTotal (df : List Row) (p : String) : Int :=
  ((df.filter (fun r => r.player == p)).map (fun r => r.winnings)).sum

/-- Stated from the spec's words for comparison: "the number of distinct
players with nonzero yearly total" — the distinct players whose summed
`net_amount` over all rows is nonzero. -/
def playersWithNonzeroYearlyTotal (df : List Row) : List String :=
  ((df.map (fun r => r.player)).dedup).filter (fun p => decide (yearlyTotal df p ≠ 0))

/-! Concrete inputs used by the closed witness and counterexample
theorems below. Amounts are in cents (e.g. `7500` = 75.00). -/

/-- An ordinary qualifying expense: "Poker Night", 2025-03-10, participant
A paid 100.00 and owed 25.00, participant B paid 0 and owed 75.00. -/
def expGood : Expense :=
  { description := some "Poker Night", date := .parsed ⟨2025, 3, 10⟩,
    users := some [
      { user := some { first_name := some "A" },
        paid_share := some (.numStr 10000), owed_share := some (.numStr 2500) },
      { user := some { first_name := some "B" },
        paid_share := some (.numStr 0), owed_share := some (.numStr 7500) }] }

/-- An expense whose date string `dateutil` cannot parse. -/
def expBadDate : Expense :=
  { description := some "Poker Night", date := .unparseable "not-a-date" }

/-- A qualifying expense one of whose participations carries a non-empty
non-numeric `paid_share` string. -/
def expBadShare : Expense :=
  { description := some "Poker Night", date := .parsed ⟨2025, 3, 10⟩,
    users := some [
      { user := some { first_name := some "A" },
        paid_share := some (.badStr "abc"), owed_share := some (.numStr 2500) }] }

/-- A non-payment expense matching no keyword, whose `payment` field is the
truthy integer `1` rather than the boolean `True`. -/
def expPaymentInt : Expense :=
  { description := some "Poker night", payment := some (.int 1) }

/-- Two rows of one player whose winnings sum to zero. -/
def dfZeroSum : List Row :=
  [⟨⟨2025, 3, 10⟩, "A", 500, "x"⟩, ⟨⟨2025, 3, 10⟩, "A", -500, "y"⟩]

/-- A user object with an empty `name` and a usable `email`. -/
def userEmailOnly : UserObj :=
  { name := some "", email := some "a@b.c" }

/-- A participation with distinct numeric shares. -/
def shareWin : UserShare :=
  { user := some { first_name := some "A" },
    paid_share := some (.numStr 10000), owed_share := some (.numStr 2500) }

/-- A participation that merely splits evenly (paid equals owed). -/
def shareEven : UserShare :=
  { user := some { first_name := some "A" },
    paid_share := some (.numStr 2500), owed_share := some (.numStr 2500) }

/-- A single qualifying row dated 2025-03-10 ("Mar W2"). -/
def rowMar10 : Row := ⟨⟨2025, 3, 10⟩, "A", 7500, "Poker Night"⟩

/-- The keyed row `add_week_keys` produces from `rowMar10`. -/
def krowMar10 : KRow :=
  ⟨⟨2025, 3, 10⟩, "A", 7500, "Poker Night", "Mar", 2, "Mar W2"⟩

lemma startsWithCh_iff (n h : List Char) :
    startsWithCh n h = true ↔ ∃ t, h = n ++ t := by
  induction n generalizing h with
  | nil =>
    simp [startsWithCh]
  | cons a n ih =>
    cases h with
    | nil =>
      simp [startsWithCh]
    | cons b t =>
      simp only [startsWithCh, Bool.and_eq_true, beq_iff_eq, ih, List.cons_append,
        List.cons.injEq]
      constructor
      · rintro ⟨rfl, u, rfl⟩
        exact ⟨u, rfl, rfl⟩
      · rintro ⟨u, rfl, rfl⟩
        exact ⟨rfl, u, rfl⟩

lemma hasSubstr_iff (n h : List Char) :
    hasSubstr n h = true ↔ ∃ s t, h = s ++ n ++ t := by
  induction h with
  | nil =>
    simp only [hasSubstr, List.isEmpty_iff]
    constructor
    · rintro rfl
      exact ⟨[], [], rfl⟩
    · rintro ⟨s, t, hst⟩
      rcases List.append_eq_nil.mp hst.symm with ⟨h1, h2⟩
      exact (List.append_eq_nil.mp h1).2
  | cons b h ih =>
    simp only [hasSubstr, Bool.or_eq_true, startsWithCh_iff, ih]
    constructor
    · rintro (⟨t, ht⟩ | ⟨s, t, rfl⟩)
      · exact ⟨[], t, by simpa using ht⟩
      · exact ⟨b :: s, t, by simp⟩
    · rintro ⟨s, t, hst⟩
      cases s with
      | nil =>
        exact Or.inl ⟨t, by simpa using hst⟩
      | cons c s =>
        rcases List.cons.injEq .. ▸ hst with ⟨rfl, htl⟩
        exact Or.inr ⟨s, t, htl⟩

lemma isPaymentTrue_iff (p : Option PyVal) :
    isPaymentTrue p = true ↔ p = some (.bool true) := by
  rcases p with _ | v
  · simp [isPaymentTrue]
  · rcases v with b | n | s
    · cases b <;> simp [isPaymentTrue]
    · simp [isPaymentTrue]
    · simp [isPaymentTrue]

/-- C3: `should_exclude_expense` returns `True` iff the description —
stripped, lowercased, an absent/`None` description read as the empty
string — contains some configured keyword (lowercased) as a substring, or
the record's `payment` field is the boolean `True`. The function is a total
`Bool`-valued function of the record (no `Except`), which is the model of
"no side effects, never raises". -/
theorem should_exclude_iff_keyword_or_payment (kws : List String) (exp : Expense) :
    shouldExcludeExpense kws exp = true ↔
      (∃ kw ∈ kws, ∃ s t,
          (pyLower (pyStrip (exp.description.getD ""))).data
            = s ++ (pyLower kw).data ++ t)
      ∨ exp.payment = some (.bool true) := by
  simp only [shouldExcludeExpense]
  cases hany : kws.any
      (fun kw => hasSubstr (pyLower kw).data
        (pyLower (pyStrip (exp.description.getD ""))).data) with
  | true =>
    rw [if_pos rfl]
    simp only [true_iff]
    refine Or.inl ?_
    rcases List.any_eq_true.mp hany with ⟨kw, hkw, hsub⟩
    exact ⟨kw, hkw, hasSubstr_iff .. |>.mp hsub⟩
  | false =>
    rw [if_neg (by simp)]
    rw [isPaymentTrue_iff]
    constructor
    · exact Or.inr
    · rintro (⟨kw, hkw, s, t, hst⟩ | hpay)
      · exfalso
        have : hasSubstr (pyLower kw).data
            (pyLower (pyStrip (exp.description.getD ""))).data = true :=
          (hasSubstr_iff ..).mpr ⟨s, t, hst⟩
        have hall := List.any_eq_false.mp hany kw hkw
        exact hall this
      · exact hpay

/-- C10: when no configured keyword matches the (stripped, lowercased)
description, the filter excludes the record exactly when its `payment`
field is the boolean `True`; in particular the integer `1`, a non-empty
string, or an absent field never causes exclusion. -/
theorem payment_excludes_only_bool_true (kws : List String) (exp : Expense)
    (hno : ∀ kw ∈ kws,
      hasSubstr (pyLower kw).data
        (pyLower (pyStrip (exp.description.getD ""))).data = false) :
    shouldExcludeExpense kws exp = true ↔ exp.payment = some (.bool true) := by
  simp only [shouldExcludeExpense]
  have hany : (kws.any
      (fun kw => hasSubstr (pyLower kw).data
        (pyLower (pyStrip (exp.description.getD ""))).data)) = false := by
    rw [List.any_eq_false]
    intro kw hkw
    simp [hno kw hkw]
  rw [if_neg (by simp [hany])]
  exact isPaymentTrue_iff exp.payment

/-- C10 witness: on the expense "Poker night" with `payment = 1`, no
keyword matches, and the filter excludes iff the payment field is the
boolean `True` — which it is not, so the record is kept. -/
theorem payment_excludes_only_bool_true_witness :
    (∀ kw ∈ EXCLUDE_DESCRIPTION_KEYWORDS,
      hasSubstr (pyLower kw).data
        (pyLower (pyStrip (expPaymentInt.description.getD ""))).data = false)
    ∧ (shouldExcludeExpense EXCLUDE_DESCRIPTION_KEYWORDS expPaymentInt = true
        ↔ expPaymentInt.payment = some (.bool true))
    ∧ shouldExcludeExpense EXCLUDE_DESCRIPTION_KEYWORDS expPaymentInt = false :=
  ⟨by decide,
   payment_excludes_only_bool_true EXCLUDE_DESCRIPTION_KEYWORDS expPaymentInt (by decide),
   by decide⟩

/-- C9: the display name resolves totally by the chain: the space-joined
concatenation of the stripped first and last names, stripped; if that is
empty, the `name` field when truthy; failing that, the `email` field when
truthy; failing that, the literal `"Unknown"`. `resolveName` is a total
`String`-valued function, the model of "pure and total — never fails". -/
theorem resolve_name_chain (u : UserObj) :
    (pyStrip (pyStrip (u.first_name.getD "") ++ " " ++ pyStrip (u.last_name.getD "")) ≠ "" →
      resolveName u
        = pyStrip (pyStrip (u.first_name.getD "") ++ " " ++ pyStrip (u.last_name.getD "")))
    ∧ (pyStrip (pyStrip (u.first_name.getD "") ++ " " ++ pyStrip (u.last_name.getD "")) = "" →
        truthyStr u.name = true → resolveName u = u.name.getD "")
    ∧ (pyStrip (pyStrip (u.first_name.getD "") ++ " " ++ pyStrip (u.last_name.getD "")) = "" →
        truthyStr u.name = false → truthyStr u.email = true →
          resolveName u = u.email.getD "")
    ∧ (pyStrip (pyStrip (u.first_name.getD "") ++ " " ++ pyStrip (u.last_name.getD "")) = "" →
        truthyStr u.name = false → truthyStr u.email = false →
          resolveName u = "Unknown") := by
  simp only [resolveName]
  refine ⟨fun hne => by rw [if_neg hne], fun hz hn => ?_, fun hz hn he => ?_, fun hz hn he => ?_⟩
  · rw [if_pos hz]
    rcases hname : u.name with _ | s
    · rw [hname] at hn
      simp [truthyStr] at hn
    · rw [hname] at hn
      simp only [truthyStr, Option.getD_some, ne_eq, decide_eq_true_eq] at hn
      simp [orElseStr, hn]
  · rw [if_pos hz]
    have hn' : orElseStr u.name (orElseStr u.email "Unknown") = orElseStr u.email "Unknown" := by
      rcases hname : u.name with _ | s
      · simp [orElseStr]
      · rw [hname] at hn
        simp only [truthyStr, Option.getD_some, ne_eq, decide_eq_false_iff_not,
          not_not] at hn
        simp [orElseStr, hn]
    rw [hn']
    rcases hemail : u.email with _ | s
    · rw [hemail] at he
      simp [truthyStr] at he
    · rw [hemail] at he
      simp only [truthyStr, Option.getD_some, ne_eq, decide_eq_true_eq] at he
      simp [orElseStr, he]
  · rw [if_pos hz]
    have hn' : orElseStr u.name (orElseStr u.email "Unknown") = orElseStr u.email "Unknown" := by
      rcases hname : u.name with _ | s
      · simp [orElseStr]
      · rw [hname] at hn
        simp only [truthyStr, Option.getD_some, ne_eq, decide_eq_false_iff_not,
          not_not] at hn
        simp [orElseStr, hn]
    rw [hn']
    rcases hemail : u.email with _ | s
    · simp [orElseStr]
    · rw [hemail] at he
      simp only [truthyStr, Option.getD_some, ne_eq, decide_eq_false_iff_not,
        not_not] at he
      simp [orElseStr, he]

/-- C9 witness: for a user object with no name parts, an empty account
name and the email "a@b.c", the joined name is empty, the `name` field is
falsy, the `email` field is truthy, and resolution lands on the email. -/
theorem resolve_name_chain_witness :
    pyStrip (pyStrip (userEmailOnly.first_name.getD "")
        ++ " " ++ pyStrip (userEmailOnly.last_name.getD "")) = ""
    ∧ truthyStr userEmailOnly.name = false
    ∧ truthyStr userEmailOnly.email = true
    ∧ resolveName userEmailOnly = "a@b.c" :=
  ⟨by decide, by decide, by decide,
   (resolve_name_chain userEmailOnly).2.2.1 (by decide) (by decide) (by decide)⟩


lemma extractRow_eq (dt : PyDate) (desc : String) (u : UserShare) (paid owed : Int)
    (hp : coerceShare u.paid_share = .ok paid)
    (ho : coerceShare u.owed_share = .ok owed) :
    extractRow dt desc u =
      if paid - owed ≠ 0 then
        .ok (some { date := dt, player := pyStrip (resolveName (u.user.getD {})),
                    winnings := paid - owed, expense := desc })
      else .ok none := by
  unfold extractRow
  rw [hp, ho]

lemma extractRow_ok_some (dt : PyDate) (desc : String) (u : UserShare) (r : Row)
    (h : extractRow dt desc u = .ok (some r)) : r.winnings ≠ 0 := by
  rcases hp : coerceShare u.paid_share with e | paid
  · simp [extractRow, hp] at h
  rcases ho : coerceShare u.owed_share with e | owed
  · simp [extractRow, hp, ho] at h
  rw [extractRow_eq dt desc u paid owed hp ho] at h
  by_cases hnet : paid - owed ≠ 0
  · rw [if_pos hnet] at h
    cases h
    simpa using hnet
  · rw [if_neg hnet] at h
    simp at h

lemma extractRows_ok_mem (dt : PyDate) (desc : String) (us : List UserShare)
    (rows : List Row) (h : extractRows dt desc us = .ok rows) :
    ∀ r ∈ rows, r.winnings ≠ 0 := by
  induction us generalizing rows with
  | nil =>
    simp only [extractRows, Except.ok.injEq] at h
    subst h
    intro r hr
    cases hr
  | cons u us ih =>
    rcases hr : extractRow dt desc u with e | r?
    · simp [extractRows, hr] at h
    rcases hrest : extractRows dt desc us with e | rest
    · simp [extractRows, hr, hrest] at h
    rcases r? with _ | r0
    · simp only [extractRows, hr, hrest, Except.ok.injEq] at h
      subst h
      exact ih rest hrest
    · simp only [extractRows, hr, hrest, Except.ok.injEq] at h
      subst h
      intro r hmem
      rcases List.mem_cons.mp hmem with rfl | hmem'
      · exact extractRow_ok_some dt desc u r hr
      · exact ih rest hrest r hmem'

lemma parseExpenses_ok_mem (kws : List String) (year : Int) (exps : List Expense)
    (rows : List Row) (h : parseExpenses kws year exps = .ok rows) :
    ∀ r ∈ rows, r.winnings ≠ 0 := by
  induction exps generalizing rows with
  | nil =>
    simp only [parseExpenses, Except.ok.injEq] at h
    subst h
    intro r hr
    cases hr
  | cons exp rest ih =>
    by_cases hex : shouldExcludeExpense kws exp = true
    · simp only [parseExpenses, hex, if_true] at h
      exact ih rows h
    · rcases hdate : exp.date with _ | s | dt
      · simp [parseExpenses, hex, hdate] at h
      · simp [parseExpenses, hex, hdate] at h
      · by_cases hyear : dt.year = year
        · rcases hrows : extractRows dt (exp.description.getD "") (exp.users.getD [])
            with e | rows1
          · simp [parseExpenses, hex, hdate, hyear, hrows] at h
          rcases hrest : parseExpenses kws year rest with e | rest1
          · simp [parseExpenses, hex, hdate, hyear, hrows, hrest] at h
          simp only [parseExpenses, hex, hdate, hyear, hrows, hrest, if_false,
            ne_eq, not_true_eq_false, if_neg, Except.ok.injEq, Bool.false_eq_true,
            reduceCtorEq] at h
          subst h
          intro r hmem
          rcases List.mem_append.mp hmem with h1 | h2
          · exact extractRows_ok_mem dt (exp.description.getD "")
              (exp.users.getD []) rows1 hrows r h1
          · exact ih rest1 hrest r h2
        · simp only [parseExpenses, hex, hdate] at h
          rw [if_neg (by simp [hex]), if_pos hyear] at h
          exact ih rows h

/-- C7: no zero-net row is ever materialized — every row an `.ok` run of
`parse_expenses` returns has `winnings ≠ 0`; and per participation, when
both shares coerce, equal shares yield no row while unequal shares yield
exactly one row carrying `net = paid - owed` and the expense's date. -/
theorem zero_net_rows_never_materialized :
    (∀ (kws : List String) (year : Int) (exps : List Expense) (rows : List Row),
        parseExpenses kws year exps = .ok rows → ∀ r ∈ rows, r.winnings ≠ 0)
    ∧ (∀ (dt : PyDate) (desc : String) (u : UserShare) (paid owed : Int),
        coerceShare u.paid_share = .ok paid → coerceShare u.owed_share = .ok owed →
          (paid = owed → extractRow dt desc u = .ok none)
          ∧ (paid ≠ owed → ∃ r, extractRow dt desc u = .ok (some r)
              ∧ r.winnings = paid - owed ∧ r.date = dt)) := by
  refine ⟨parseExpenses_ok_mem, fun dt desc u paid owed hp ho => ⟨?_, ?_⟩⟩
  · intro heq
    rw [extractRow_eq dt desc u paid owed hp ho, if_neg (by simp [heq])]
  · intro hne
    rw [extractRow_eq dt desc u paid owed hp ho,
      if_pos (by simpa [sub_eq_zero] using hne)]
    exact ⟨_, rfl, rfl, rfl⟩

/-- C7 witness: on the concrete participations, equal shares (25.00 each)
produce no row, and shares 100.00 / 25.00 produce one row with net 75.00. -/
theorem zero_net_rows_witness :
    coerceShare shareEven.paid_share = .ok 2500
    ∧ extractRow ⟨2025, 3, 10⟩ "Poker Night" shareEven = .ok none
    ∧ ∃ r, extractRow ⟨2025, 3, 10⟩ "Poker Night" shareWin = .ok (some r)
        ∧ r.winnings = 7500 := by
  refine ⟨rfl, ?_, ?_⟩
  · exact (zero_net_rows_never_materialized.2 ⟨2025, 3, 10⟩ "Poker Night" shareEven
      2500 2500 rfl rfl).1 rfl
  · obtain ⟨r, hr, hw, _⟩ := (zero_net_rows_never_materialized.2 ⟨2025, 3, 10⟩
      "Poker Night" shareWin 10000 2500 rfl rfl).2 (by decide)
    refine ⟨r, hr, ?_⟩
    rw [hw]
    decide

/-- C2 (amended): missing, `None`, and empty-string shares coerce to `0`,
numeric values and numeric strings give their value, and a participation
whose shares all coerce is processed without error with
`net = paid - owed`; but a non-empty non-numeric share string makes
`float` raise `ValueError` instead of being coerced to `0`. -/
theorem share_coercion_amended :
    (coerceShare none = .ok 0)
    ∧ (coerceShare (some .null) = .ok 0)
    ∧ (coerceShare (some .emptyStr) = .ok 0)
    ∧ (∀ q : Int, coerceShare (some (.num q)) = .ok q)
    ∧ (∀ q : Int, coerceShare (some (.numStr q)) = .ok q)
    ∧ (∀ s : String, coerceShare (some (.badStr s))
        = .error ("ValueError: could not convert string to float: " ++ s))
    ∧ (∀ (dt : PyDate) (desc : String) (u : UserShare) (paid owed : Int),
        coerceShare u.paid_share = .ok paid → coerceShare u.owed_share = .ok owed →
          ∃ r?, extractRow dt desc u = .ok r?
            ∧ ∀ r, r? = some r → r.winnings = paid - owed) := by
  refine ⟨rfl, rfl, rfl, fun q => rfl, fun q => rfl, fun s => rfl,
    fun dt desc u paid owed hp ho => ?_⟩
  rw [extractRow_eq dt desc u paid owed hp ho]
  by_cases hnet : paid - owed ≠ 0
  · rw [if_pos hnet]
    refine ⟨_, rfl, fun r hr => ?_⟩
    cases hr
    rfl
  · rw [if_neg hnet]
    exact ⟨none, rfl, fun r hr => by cases hr⟩

/-- C2 witness: the participation paying 100.00 and owing 25.00 coerces
both shares and is processed without error; its single row nets
`10000 - 2500` cents. -/
theorem share_coercion_amended_witness :
    coerceShare shareWin.paid_share = .ok 10000
    ∧ coerceShare shareWin.owed_share = .ok 2500
    ∧ ∃ r?, extractRow ⟨2025, 3, 10⟩ "Poker Night" shareWin = .ok r?
        ∧ ∀ r, r? = some r → r.winnings = 10000 - 2500 :=
  ⟨rfl, rfl,
   share_coercion_amended.2.2.2.2.2.2 ⟨2025, 3, 10⟩ "Poker Night" shareWin
     10000 2500 rfl rfl⟩

/-- C2 counterexample: the claim "a missing or non-numeric share is
coerced to 0 and no error is ever raised" is false on the code — a
non-empty non-numeric `paid_share` string makes the whole
`parse_expenses` run raise `ValueError`. -/
theorem share_coercion_counterexample :
    parseExpenses EXCLUDE_DESCRIPTION_KEYWORDS TARGET_YEAR [expBadShare]
      = .error "ValueError: could not convert string to float: abc"
    ∧ coerceShare (some (.badStr "abc"))
      = .error "ValueError: could not convert string to float: abc" :=
  ⟨rfl, rfl⟩

/-- C1 (amended): when a non-excluded record's date string cannot be
parsed, `parse_expenses` raises the parser error immediately: the whole
call aborts, no count of skipped records is produced (the function returns
only rows or an error), and the records after the bad one are never
processed. -/
theorem unparseable_date_aborts (kws : List String) (year : Int) (exp : Expense)
    (rest : List Expense) (hex : shouldExcludeExpense kws exp = false)
    (s : String) (hdate : exp.date = .unparseable s) :
    parseExpenses kws year (exp :: rest)
      = .error ("ParserError: Unknown string format: " ++ s) := by
  simp only [parseExpenses, hdate]
  rw [if_neg (by simp [hex])]

/-- C1 witness: on the concrete record with date string "not-a-date", the
filter keeps the record and `parse_expenses` aborts with the parser
error. -/
theorem unparseable_date_aborts_witness :
    shouldExcludeExpense EXCLUDE_DESCRIPTION_KEYWORDS expBadDate = false
    ∧ parseExpenses EXCLUDE_DESCRIPTION_KEYWORDS TARGET_YEAR [expBadDate]
        = .error "ParserError: Unknown string format: not-a-date" :=
  ⟨by decide,
   unparseable_date_aborts EXCLUDE_DESCRIPTION_KEYWORDS TARGET_YEAR expBadDate []
     (by decide) "not-a-date" rfl⟩

/-- C1 counterexample: with the unparseable-date record first, the run
aborts with an error — the remaining (perfectly good) record is not
processed and no skipped count is reported — even though that record alone
yields two rows. This falsifies "rejects only that record, reports a
count of skipped records, and still processes all remaining records". -/
theorem unparseable_date_counterexample :
    parseExpenses EXCLUDE_DESCRIPTION_KEYWORDS TARGET_YEAR [expBadDate, expGood]
      = .error "ParserError: Unknown string format: not-a-date"
    ∧ parseExpenses EXCLUDE_DESCRIPTION_KEYWORDS TARGET_YEAR [expGood]
      = .ok [⟨⟨2025, 3, 10⟩, "A", 7500, "Poker Night"⟩,
             ⟨⟨2025, 3, 10⟩, "B", -7500, "Poker Night"⟩] :=
  ⟨rfl, rfl⟩

/-- C8: `add_week_keys` is a pure, order-preserving transform dropping no
rows (erasing the added columns gives back the input list, row for row),
and each produced row carries `week_of_month = (day - 1) / 7 + 1`, the
label `"<Mon> W<n>"` built from the month abbreviation, and — for the
calendar days `1..31` a parsed date can carry — a `week_of_month` in
`1..5`. -/
theorem add_week_keys_bucketing (df : List Row) :
    (addWeekKeys df).map (fun k => Row.mk k.date k.player k.winnings k.expense) = df
    ∧ ∀ k ∈ addWeekKeys df,
        k.week_of_month = (k.date.day - 1) / 7 + 1
        ∧ k.week_label = monthAbbr k.date.month ++ " W" ++ toString k.week_of_month
        ∧ k.month = monthAbbr k.date.month
        ∧ (1 ≤ k.date.day → k.date.day ≤ 31 →
            1 ≤ k.week_of_month ∧ k.week_of_month ≤ 5) := by
  constructor
  · simp only [addWeekKeys, List.map_map]
    exact (List.map_congr_left fun a _ => rfl).trans (List.map_id df)
  · intro k hk
    rcases List.mem_map.mp hk with ⟨r, hr, rfl⟩
    refine ⟨rfl, rfl, rfl, fun h1 h31 => ⟨Nat.le_add_left 1 _, ?_⟩⟩
    have h31' : r.date.day ≤ 31 := h31
    show (r.date.day - 1) / 7 + 1 ≤ 5
    have h4 : (r.date.day - 1) / 7 ≤ 30 / 7 := Nat.div_le_div_right (by omega)
    norm_num at h4
    omega

/-- C8 witness: the row dated 2025-03-10 is bucketed (day 10 gives
week-of-month 2, label "Mar W2"), stays in the table, and its
week-of-month lies in `1..5`. -/
theorem add_week_keys_bucketing_witness :
    krowMar10 ∈ addWeekKeys [rowMar10]
    ∧ krowMar10.week_label = "Mar W2"
    ∧ 1 ≤ krowMar10.week_of_month ∧ krowMar10.week_of_month ≤ 5 := by
  refine ⟨by decide, by decide, ?_⟩
  exact ((add_week_keys_bucketing [rowMar10]).2 krowMar10 (by decide)).2.2.2
    (by decide) (by decide)

lemma enum_fst_add_one {α : Type _} (l : List α) :
    l.enum.map (fun ie => ie.1 + 1) = List.range' 1 l.length := by
  have h1 : l.enum.map (fun ie => ie.1 + 1)
      = (l.enum.map Prod.fst).map (fun n => n + 1) := by
    rw [List.map_map]
    rfl
  rw [h1, List.enum_map_fst, List.range'_eq_map_range]
  exact List.map_congr_left fun a _ => Nat.add_comm a 1

lemma yearlyLeaderboard_map_rank (rows : List KRow) :
    (yearlyLeaderboard rows).map (fun y => y.rank)
      = List.range' 1 ((rows.map (fun r => r.player)).dedup.length) := by
  unfold yearlyLeaderboard
  rw [List.map_map]
  show ((yearlyPairs rows).insertionSort descWinnings).enum.map (fun ie => ie.1 + 1) = _
  rw [enum_fst_add_one]
  congr 1
  rw [(List.perm_insertionSort descWinnings (yearlyPairs rows)).length_eq]
  unfold yearlyPairs
  rw [List.length_map, (List.perm_insertionSort _ _).length_eq]

lemma yearlyLeaderboard_map_winnings (rows : List KRow) :
    (yearlyLeaderboard rows).map (fun y => y.winnings)
      = ((yearlyPairs rows).insertionSort descWinnings).map (fun p => p.2) := by
  unfold yearlyLeaderboard
  rw [List.map_map]
  show ((yearlyPairs rows).insertionSort descWinnings).enum.map
    ((fun p : String × Int => p.2) ∘ Prod.snd) = _
  rw [← List.map_map, List.enum_map_snd]

lemma addWeekKeys_map_player (df : List Row) :
    (addWeekKeys df).map (fun k => k.player) = df.map (fun r => r.player) := by
  rw [addWeekKeys, List.map_map]
  exact List.map_congr_left fun a _ => rfl

lemma addWeekKeys_map_winnings (df : List Row) :
    (addWeekKeys df).map (fun k => k.winnings) = df.map (fun r => r.winnings) := by
  rw [addWeekKeys, List.map_map]
  exact List.map_congr_left fun a _ => rfl

/-- C4 (amended): the yearly leaderboard's ranks are exactly `1..K` in
order and its winnings column is non-increasing, where `K` is the number of
distinct players appearing in the rows — including players whose rows sum
to zero, who still receive a leaderboard row. -/
theorem yearly_ranks_amended (df : List Row) :
    ((computeLeaderboards df).yearly.map (fun y => y.rank))
      = List.range' 1 ((df.map (fun r => r.player)).dedup.length)
    ∧ List.Pairwise (fun a b => b ≤ a)
        ((computeLeaderboards df).yearly.map (fun y => y.winnings)) := by
  have hyd : (computeLeaderboards df).yearly = yearlyLeaderboard (addWeekKeys df) := rfl
  constructor
  · rw [hyd, yearlyLeaderboard_map_rank, addWeekKeys_map_player]
  · rw [hyd, yearlyLeaderboard_map_winnings]
    refine List.pairwise_map.mpr ?_
    exact List.sorted_insertionSort descWinnings (yearlyPairs (addWeekKeys df))

/-- C4 counterexample: for two rows of one player netting +5.00 and -5.00,
the yearly leaderboard still has one row (rank 1, total 0), while the
number of distinct players with nonzero yearly total is 0 — so ranks are
not `1..K` for the claim's `K`. -/
theorem yearly_ranks_counterexample :
    ¬ (((computeLeaderboards dfZeroSum).yearly.map (fun y => y.rank))
        = List.range' 1 (playersWithNonzeroYearlyTotal dfZeroSum).length)
    ∧ ((computeLeaderboards dfZeroSum).yearly.map (fun y => y.rank)) = [1]
    ∧ playersWithNonzeroYearlyTotal dfZeroSum = [] :=
  ⟨by decide, by decide, by decide⟩

lemma sum_filter_split (f : KRow → Int) (p : KRow → Bool) (l : List KRow) :
    ((l.filter p).map f).sum + ((l.filter (fun x => !p x)).map f).sum
      = (l.map f).sum := by
  induction l with
  | nil => simp
  | cons a l ih =>
    cases hp : p a <;> simp [List.filter_cons, hp] <;> omega

lemma sumFor_filter_ne (p k : String) (hne : p ≠ k) (rows : List KRow) :
    sumFor p (rows.filter (fun r => !(r.player == k))) = sumFor p rows := by
  unfold sumFor
  rw [List.filter_filter]
  refine congrArg (fun l : List KRow => (l.map (fun r => r.winnings)).sum)
    (List.filter_congr fun r hr => ?_)
  cases hq : r.player == p
  · simp [hq]
  · have hrp : r.player = p := by simpa using hq
    simp [hq, hrp, hne]

lemma sum_sumFor (keys : List String) : ∀ rows : List KRow, keys.Nodup →
    (∀ r ∈ rows, r.player ∈ keys) →
    (keys.map (fun p => sumFor p rows)).sum = (rows.map (fun r => r.winnings)).sum := by
  induction keys with
  | nil =>
    intro rows _ hall
    cases rows with
    | nil => simp
    | cons r rs =>
      exact absurd (hall r (List.mem_cons_self r rs)) (List.not_mem_nil r.player)
  | cons k ks ih =>
    intro rows hnd hall
    rcases List.nodup_cons.mp hnd with ⟨hk, hksnd⟩
    have hship : (ks.map (fun p => sumFor p rows)).sum
        = (ks.map (fun p => sumFor p (rows.filter (fun r => !(r.player == k))))).sum := by
      congr 1
      refine List.map_congr_left fun p hp => ?_
      exact (sumFor_filter_ne p k (fun h => hk (h ▸ hp)) rows).symm
    have hall' : ∀ r ∈ rows.filter (fun r => !(r.player == k)), r.player ∈ ks := by
      intro r hr
      rcases List.mem_filter.mp hr with ⟨hrows, hpk⟩
      rcases List.mem_cons.mp (hall r hrows) with h | h
      · exfalso
        have : r.player ≠ k := by simpa using hpk
        exact this h
      · exact h
    calc (List.map (fun p => sumFor p rows) (k :: ks)).sum
        = sumFor k rows + (ks.map (fun p => sumFor p rows)).sum := by simp
      _ = sumFor k rows
          + ((rows.filter (fun r => !(r.player == k))).map (fun r => r.winnings)).sum := by
            rw [hship, ih _ hksnd hall']
      _ = (rows.map (fun r => r.winnings)).sum := by
            have hsplit := sum_filter_split (fun r => r.winnings)
              (fun r => r.player == k) rows
            unfold sumFor
            omega

/-- C5: the yearly aggregation conserves the total — the sum of the
yearly leaderboard's winnings column equals the sum of `winnings` over all
input rows. -/
theorem yearly_sum_conserved (df : List Row) :
    ((computeLeaderboards df).yearly.map (fun y => y.winnings)).sum
      = (df.map (fun r => r.winnings)).sum := by
  have hyd : (computeLeaderboards df).yearly = yearlyLeaderboard (addWeekKeys df) := rfl
  rw [hyd, yearlyLeaderboard_map_winnings]
  rw [((List.perm_insertionSort descWinnings
    (yearlyPairs (addWeekKeys df))).map (fun p : String × Int => p.2)).sum_eq]
  unfold yearlyPairs
  rw [List.map_map]
  show (((((addWeekKeys df).map (fun r => r.player)).dedup).insertionSort
      (fun a b => a ≤ b)).map (fun p => sumFor p (addWeekKeys df))).sum = _
  rw [((List.perm_insertionSort (fun a b : String => a ≤ b)
    (((addWeekKeys df).map (fun r => r.player)).dedup)).map
      (fun p => sumFor p (addWeekKeys df))).sum_eq]
  rw [sum_sumFor _ _ (List.nodup_dedup _)
    (fun r hr => List.mem_dedup.mpr (List.mem_map_of_mem _ hr))]
  rw [addWeekKeys_map_winnings]

lemma filter_flatMap {α β : Type _} (l : List α) (f : α → List β) (p : β → Bool) :
    (l.flatMap f).filter p = l.flatMap (fun a => (f a).filter p) := by
  induction l with
  | nil => rfl
  | cons a t ih => simp only [List.flatMap_cons, List.filter_append, ih]

lemma flatMap_nil_of_forall {α β : Type _} (t : List α) (g : α → List β)
    (h : ∀ b ∈ t, g b = []) : t.flatMap g = [] := by
  induction t with
  | nil => rfl
  | cons x t ih =>
    rw [List.flatMap_cons, h x (List.mem_cons_self x t), List.nil_append]
    exact ih fun b hb => h b (List.mem_cons_of_mem x hb)

lemma flatMap_eq_single {α β : Type _} [DecidableEq α] (l : List α) (g : α → List β)
    (a : α) (hnd : l.Nodup) (hg : ∀ b ∈ l, b ≠ a → g b = []) :
    l.flatMap g = if a ∈ l then g a else [] := by
  induction l with
  | nil => simp
  | cons x t ih =>
    rcases List.nodup_cons.mp hnd with ⟨hx, htnd⟩
    rw [List.flatMap_cons]
    by_cases hxa : x = a
    · subst hxa
      have ht : t.flatMap g = [] :=
        flatMap_nil_of_forall t g fun b hb =>
          hg b (List.mem_cons_of_mem x hb) (fun h => hx (h ▸ hb))
      rw [ht, List.append_nil, if_pos (List.mem_cons_self x t)]
    · have hxg : g x = [] := hg x (List.mem_cons_self x t) hxa
      rw [hxg, List.nil_append,
        ih htnd (fun b hb hba => hg b (List.mem_cons_of_mem x hb) hba)]
      by_cases hat : a ∈ t
      · rw [if_pos hat, if_pos (List.mem_cons_of_mem x hat)]
      · rw [if_neg hat, if_neg fun hmem => ?_]
        rcases List.mem_cons.mp hmem with h | h
        · exact hxa h.symm
        · exact hat h

lemma weekBlock_label (lbl : String) (rows : List KRow) :
    ∀ w ∈ weekBlock lbl rows, w.week_label = lbl := by
  intro w hw
  rcases List.mem_map.mp hw with ⟨ie, _, rfl⟩
  rfl

lemma weekBlock_map_rank (lbl : String) (rows : List KRow) :
    (weekBlock lbl rows).map (fun w => w.week_rank)
      = List.range' 1 (((rows.filter (fun r => r.week_label == lbl)).map
          (fun r => r.player)).dedup.length) := by
  unfold weekBlock
  rw [List.map_map]
  show ((weekPairs lbl rows).insertionSort descWinnings).enum.map
    (fun ie => ie.1 + 1) = _
  rw [enum_fst_add_one]
  congr 1
  rw [(List.perm_insertionSort _ _).length_eq]
  unfold weekPairs
  rw [List.length_map, (List.perm_insertionSort _ _).length_eq]

/-- C6: for every week label, the `week_rank` values of that label's rows
in the weekly-totals table are exactly `1..M`, where `M` is the number of
distinct players appearing in that week's rows — no duplicates and no
gaps, even among equal summed amounts, which receive consecutive distinct
positional ranks. -/
theorem weekly_ranks_exactly_one_to_m (df : List Row) (lbl : String) :
    ((computeLeaderboards df).weekly.filter (fun w => w.week_label == lbl)).map
        (fun w => w.week_rank)
      = List.range' 1 ((((addWeekKeys df).filter (fun k => k.week_label == lbl)).map
          (fun k => k.player)).dedup.length) := by
  have hw : (computeLeaderboards df).weekly = weeklyTotals (addWeekKeys df) := rfl
  rw [hw]
  unfold weeklyTotals
  rw [filter_flatMap]
  have hnd : (sortedWeekLabels (addWeekKeys df)).Nodup :=
    (List.perm_insertionSort _ _).symm.nodup (List.nodup_dedup _)
  rw [flatMap_eq_single _ _ lbl hnd fun b hb hba =>
    List.filter_eq_nil_iff.mpr fun w hw' => by
      simp [weekBlock_label b (addWeekKeys df) w hw', hba]]
  by_cases hmem : lbl ∈ sortedWeekLabels (addWeekKeys df)
  · rw [if_pos hmem,
      List.filter_eq_self.mpr fun w hw' => by
        simp [weekBlock_label lbl (addWeekKeys df) w hw'],
      weekBlock_map_rank]
  · rw [if_neg hmem]
    have hempty : (addWeekKeys df).filter (fun r => r.week_label == lbl) = [] := by
      rw [List.filter_eq_nil_iff]
      intro r hr hcontra
      apply hmem
      have hl : r.week_label = lbl := by simpa using hcontra
      have hmd : lbl ∈ ((addWeekKeys df).map (fun r => r.week_label)).dedup :=
        List.mem_dedup.mpr (hl ▸ List.mem_map_of_mem _ hr)
      exact ((List.perm_insertionSort _ _).mem_iff).mpr hmd
    rw [hempty]
    simp
